import Mathlib

/-!
Shallow embedding of the music21 `corpus/__init__.py` module (the work
resolver, composer matcher, virtual-work lookup, local-path registration and
the reference-index builder), together with proofs about the claims of the
specification.

Python strings are modelled as Lean `String`s, with all operations carried out
on the underlying `List Char` (code-point sequences), which matches CPython
semantics for the ASCII data handled here and keeps every definition
kernel-computable.  External collaborators (`corpora.*`, `common.*`, the
filesystem, the environment settings and the `virtual` module) are modelled as
explicit parameters, following the spec, which declares them out of scope.
-/

deriving instance DecidableEq for Except

/-! ## Python string primitives -/

/-- The platform path separator `os.sep` / `os.path.sep` (POSIX). -/
def osSep : String := "/"

/-- Python `s.lower()` (ASCII case folding suffices for the corpus data). -/
def pyLower (s : String) : String := ⟨s.data.map Char.toLower⟩

/-- Python string concatenation `a + b`. -/
def pyConcat (a b : String) : String := ⟨a.data ++ b.data⟩

/-- Python slice `s[0:n]`. -/
def pyTake (s : String) (n : Nat) : String := ⟨s.data.take n⟩

/-- Python slice `s[n:]`. -/
def pyDrop (s : String) (n : Nat) : String := ⟨s.data.drop n⟩

/-- Python `s.endswith(suffix)`: the reversed suffix is a prefix of the
reversed string. -/
def pyEndsWith (s suffix : String) : Bool :=
  suffix.data.reverse.isPrefixOf s.data.reverse

/-- Python `s.startswith(pre)`. -/
def pyStartsWith (s pre : String) : Bool := pre.data.isPrefixOf s.data

/-- Python substring containment `needle in hay` on char lists. -/
def listIsInfix (needle : List Char) : List Char → Bool
  | [] => needle.isEmpty
  | c :: t => needle.isPrefixOf (c :: t) || listIsInfix needle t

/-- Python `needle in hay` for strings. -/
def pyInStr (needle hay : String) : Bool := listIsInfix needle.data hay.data

/-- Worker for `pySplit`; the fuel argument dominates the number of steps
(each step consumes at least one character), so the fuel-exhausted arm is
unreachable for the fuel chosen by `pySplit`; it is present only to make the
recursion structural. -/
def pySplitGo (sep : List Char) : Nat → List Char → List Char → List (List Char)
  | _, [], acc => [acc]
  | 0, rest, acc => [acc ++ rest]
  | n + 1, c :: cs, acc =>
    if sep.isPrefixOf (c :: cs) then
      acc :: pySplitGo sep n ((c :: cs).drop sep.length) []
    else
      pySplitGo sep n cs (acc ++ [c])

/-- Python `s.split(sep)` for a non-empty separator: splits on every
(non-overlapping, leftmost-first) occurrence, keeping empty pieces, never
returning an empty list.  (Python raises `ValueError` on an empty separator;
callers of this model guard that case themselves.) -/
def pySplit (s sep : String) : List String :=
  (pySplitGo sep.data (s.data.length + 1) s.data []).map (fun l => ⟨l⟩)

/-- Python `sep.join(parts)`. -/
def pyJoin (sep : String) : List String → String
  | [] => ""
  | [x] => x
  | x :: xs => pyConcat (pyConcat x sep) (pyJoin sep xs)

/-- Python `s.replace(old, new)` for the uses in this module (all with
`new = ''`): equals `new.join(s.split(old))` for a non-empty `old`; for an
empty `old` and empty `new`, Python returns `s` unchanged. -/
def pyReplace (s old new : String) : String :=
  if old.data.isEmpty then s else pyJoin new (pySplit s old)

/-- Helper for `pyTitle`: the Bool records whether the previous character was
alphabetic (cased). -/
def pyTitleAux : List Char → Bool → List Char
  | [], _ => []
  | c :: cs, prevAlpha =>
    (if c.isAlpha then (if prevAlpha then c.toLower else c.toUpper) else c) ::
      pyTitleAux cs c.isAlpha

/-- Python `s.title()`: uppercase a letter following a non-letter, lowercase a
letter following a letter. -/
def pyTitle (s : String) : String := ⟨pyTitleAux s.data false⟩

/-- `os.path.join(a, b)` (POSIX rules for the two-argument form). -/
def pyPathJoin (a b : String) : String :=
  if pyStartsWith b osSep then b
  else if a = "" || pyEndsWith a osSep then pyConcat a b
  else pyConcat (pyConcat a osSep) b

/-! ## Python string comparison and stable ascending sort

CPython compares strings lexicographically by code point; `list.sort()` is an
ascending stable sort with respect to `<`.  The insertion sort below inserts
each element (scanned left to right) after all elements strictly below it and
before the first element not below it, which reproduces any stable ascending
sort, in particular Python's. -/

/-- Strict lexicographic comparison of code-point sequences, as CPython
compares `str` values. -/
def charListLt : List Char → List Char → Bool
  | [], [] => false
  | [], _ :: _ => true
  | _ :: _, [] => false
  | a :: as, b :: bs => if a < b then true else if b < a then false else charListLt as bs

/-- Python `a < b` on strings. -/
def strLtB (a b : String) : Bool := charListLt a.data b.data

/-- Python `a <= b` on strings. -/
def strLeB (a b : String) : Bool := !(strLtB b a)

/-- Insert `x` into a sorted list, after every element strictly below `x`
(stable insertion for an element arriving later than the list's elements). -/
def pyInsert {α : Type} (lt : α → α → Bool) (x : α) : List α → List α
  | [] => [x]
  | y :: ys => if lt y x then y :: pyInsert lt x ys else x :: y :: ys

/-- Stable ascending sort by the strict comparison `lt`; agrees with Python's
`list.sort()` whenever `lt` is a strict weak order (the string orders used
here are total strict orders). -/
def pySort {α : Type} (lt : α → α → Bool) : List α → List α
  | [] => []
  | x :: xs => pyInsert lt x (pySort lt xs)

/-! ## Data model -/

/-- Python exception values raised by the modelled code. -/
inductive PyError
  | corpusException (msg : String)
  | runtimeError (msg : String)
  | valueError (msg : String)
  | attributeError (msg : String)
deriving DecidableEq

/-- The movement specifier accepted by the resolution functions: absent, an
integer, a string, or a pair of integers.  It is passed through to the
external core-corpus matcher and otherwise ignored by the modelled code. -/
inductive Movement
  | none
  | int (n : Int)
  | str (s : String)
  | pair (a b : Int)
deriving DecidableEq

/-- The `fileExtensions` argument before normalisation: `None`, a single
string, or a list (whose elements may themselves be `None`). -/
inductive Exts
  | noneE
  | strE (s : String)
  | listE (l : List (Option String))
deriving DecidableEq

/-- `if not common.isListLike(fileExtensions): fileExtensions = [fileExtensions]`. -/
def normalizeExts : Exts → List (Option String)
  | .noneE => [Option.none]
  | .strE s => [Option.some s]
  | .listE l => l

/-- The `workName` argument: a single string or a list of path components. -/
inductive WorkName
  | str (s : String)
  | comps (l : List String)
deriving DecidableEq

/-- `os.path.sep.join(workName)` when the name is list-like, the name itself
otherwise (as performed by `getWork` before its extension fallback). -/
def nameToStr : WorkName → String
  | .str s => s
  | .comps l => pyJoin osSep l

/-- A `music21.corpus.virtual.VirtualWork` object, as consumed by this module:
a corpus-relative path, composer, title, URL list, and its (external)
`getUrlByExt` method. -/
structure VirtualWork where
  corpusPath : Option String
  composer : String
  title : String
  urlList : List String
  getUrlByExt : List (Option String) → List String

/-- The guard of the `getVirtualWorkList` loop:
`obj.corpusPath != None and workName.lower() in obj.corpusPath.lower()`. -/
def virtualMatches (workName : String) (obj : VirtualWork) : Bool :=
  match obj.corpusPath with
  | Option.none => false
  | Option.some cp => pyInStr (pyLower workName) (pyLower cp)

/-- Loop of `getVirtualWorkList` over the `VIRTUAL` registry: the first
matching virtual work supplies the result. -/
def getVirtualWorkListGo (exts : List (Option String)) (workName : String) :
    List VirtualWork → List String
  | [] => []
  | obj :: rest =>
    if virtualMatches workName obj then obj.getUrlByExt exts
    else getVirtualWorkListGo exts workName rest

/-- `getVirtualWorkList(workName, movementNumber, fileExtensions)` from
`corpus/__init__.py`: normalises the extension argument, scans the virtual
registry in order, and returns the first match's URLs (or `[]`).  The
movement argument is accepted and ignored, as in the source. -/
def getVirtualWorkList (registry : List VirtualWork) (workName : String)
    (_movementNumber : Movement) (fileExtensions : Exts) : List String :=
  getVirtualWorkListGo (normalizeExts fileExtensions) workName registry

/-- The environment of `getWork`: the external core-corpus matcher
(`corpora.CoreCorpus().getWorkList`, reached through the module-level
`getWorkList`) and the `VIRTUAL` registry. -/
structure Corpus where
  coreWorkList : WorkName → Movement → List (Option String) → List String
  virtual : List VirtualWork

/-- The result of `getWork`: a bare path/URL or a list of them. -/
inductive WorkResult
  | single (p : String)
  | multiple (ps : List String)
deriving DecidableEq

/-- The arity policy shared by all exits of `getWork`: one match is returned
bare, zero matches raise `CorpusException`, two or more are returned as the
list itself. -/
def arityPolicy (results : List String) : Except PyError WorkResult :=
  match results with
  | [] => .error (.corpusException "Could not find a file/url that met these criteria")
  | [p] => .ok (.single p)
  | ps => .ok (.multiple ps)

/-- Body of `getWork`, with the single possible `.xml` → `.mxl` retry made
structural through `retries`.  The retried name always ends in `.mxl`, never
in `.xml`, so the recursion depth is at most one and the `retries = 0` arm of
the match is unreachable from `getWork` (which starts with `retries = 1`);
that arm falls through to the virtual lookup like the non-`.xml` case. -/
def getWorkAux (env : Corpus) : Nat → WorkName → Movement → List (Option String) →
    Except PyError WorkResult
  | retries, workName, mv, exts =>
    let results := env.coreWorkList workName mv exts
    if results.length = 0 then
      let wn := nameToStr workName
      if pyEndsWith wn ".xml" then
        match retries with
        | r + 1 =>
          getWorkAux env r (.str (pyConcat (pyTake wn (wn.data.length - 4)) ".mxl")) mv exts
        | 0 => arityPolicy (getVirtualWorkList env.virtual wn mv (.listE exts))
      else
        arityPolicy (getVirtualWorkList env.virtual wn mv (.listE exts))
    else
      arityPolicy results

/-- `getWork(workName, movementNumber, fileExtensions)` from
`corpus/__init__.py`: search the core corpus, fall back to the `.xml` → `.mxl`
substitution, then to the virtual registry, and apply the arity policy. -/
def getWork (env : Corpus) (workName : WorkName) (movementNumber : Movement)
    (fileExtensions : Exts) : Except PyError WorkResult :=
  getWorkAux env 1 workName movementNumber (normalizeExts fileExtensions)

/-! ## getComposer -/

/-- Body of the stub loop of `getComposer`: a path component matches when it
equals the composer name case-insensitively, or contains a dot and everything
before its last dot-group equals the composer name case-insensitively. -/
def composerStubMatch (composerName stub : String) : Bool :=
  pyLower composerName == pyLower stub ||
    (stub.data.contains '.' &&
      pyLower (pyJoin "." ((pySplit stub ".").dropLast)) == pyLower composerName)

/-- `getComposer(composerName, fileExtensions)` from `corpus/__init__.py`,
over an already-enumerated path listing (the external
`getPaths(fileExtensions)`): keep every path one of whose `os.sep`-separated
components matches, then sort ascending by full path string. -/
def getComposer (paths : List String) (composerName : String) : List String :=
  pySort strLtB
    (paths.filter (fun path => (pySplit path osSep).any (composerStubMatch composerName)))

/-- The fixed composer registry `COMPOSERS` (path name, full name). -/
def COMPOSERS : List (String × String) := [
  ("airdsAirs", "Aird\u0027s Airs"),
  ("bach", "Johann Sebastian Bach"),
  ("beethoven", "Ludwig van Beethoven"),
  ("cpebach", "C.P.E. Bach"),
  ("ciconia", "Johannes Ciconia"),
  ("essenFolksong", "Essen Folksong Collection"),
  ("handel", "George Frideric Handel"),
  ("haydn", "Joseph Haydn"),
  ("josquin", "Josquin des Prez"),
  ("luca", "D. Luca"),
  ("miscFolk", "Miscellaneous Folk"),
  ("monteverdi", "Claudio Monteverdi"),
  ("mozart", "Wolfgang Amadeus Mozart"),
  ("oneills1850", "Oneill\u0027s 1850"),
  ("ryansMammoth", "Ryan\u0027s Mammoth Collection"),
  ("schoenberg", "Arnold Schoenberg"),
  ("schumann", "Robert Schumann")]

/-! ## addPath and the module path cache -/

/-- The mutable module-level state touched by `addPath`: the session-local
temporary path list `_pathsLocalTemp` and the path cache `_pathsCache`, whose
keys are tuples with the domain name first. -/
structure CorpusState where
  pathsLocalTemp : List String
  pathsCache : List ((String × String) × List String)
deriving DecidableEq

/-- CPython semantics of `for key in _pathsCache: if key[0] == 'local': del
_pathsCache[key]`: a dict iterator raises `RuntimeError` on its next step
after the dict changed size, so the loop deletes the first local-domain key
and then fails (also on the final, would-be-`StopIteration` step).  Returns
the cache as left behind together with the error, if any. -/
def dictIterDelete : List (String × String) → List ((String × String) × List String) →
    Bool → List ((String × String) × List String) × Option PyError
  | [], cache, changed =>
    (cache, if changed then Option.some (.runtimeError "dictionary changed size during iteration")
            else Option.none)
  | k :: ks, cache, changed =>
    if changed then
      (cache, Option.some (.runtimeError "dictionary changed size during iteration"))
    else if k.1 == "local" then
      dictIterDelete ks (cache.filter (fun kv => !(kv.1 == k))) true
    else
      dictIterDelete ks cache false

/-- `addPath(filePath)` from `corpus/__init__.py`.  `fileExists` models
`os.path.exists`, `localCorpusSettings` the environment setting of the same
name.  The result is the state as left behind by the call, together with the
exception it raises, if any (Python leaves the mutations made before an
exception in place). -/
def addPath (fileExists : String → Bool) (localCorpusSettings : List String)
    (st : CorpusState) (filePath : Option String) : CorpusState × Option PyError :=
  match filePath with
  | Option.none => (st, Option.some (.corpusException "an invalid file path has been provided"))
  | Option.some fp =>
    if !(fileExists fp) then
      (st, Option.some (.corpusException "an invalid file path has been provided"))
    else if st.pathsLocalTemp.contains fp then
      (st, Option.some (.corpusException "the provided path has already been added"))
    else if localCorpusSettings.contains fp then
      (st, Option.some (.corpusException
        "the provided path is already incldued in the Environment localCorpusSettings"))
    else
      let st1 : CorpusState := { st with pathsLocalTemp := st.pathsLocalTemp ++ [fp] }
      let dd := dictIterDelete (st1.pathsCache.map Prod.fst) st1.pathsCache false
      ({ st1 with pathsCache := dd.1 }, dd.2)

/-! ## The reference-index builder (getWorkReferences) -/

/-- A `fileDict` built by `getWorkReferences`.  Core-corpus records carry a
`fileName` and no `url`; virtual records carry a `url` and no `fileName`. -/
structure FileRecord where
  format : Option String
  ext : Option String
  corpusPath : String
  fileName : Option String
  title : String
  url : Option String
deriving DecidableEq

/-- The per-work-stub record of `ref['works']`. -/
structure WorkEntry where
  title : String
  virtual : Bool
  files : List FileRecord
deriving DecidableEq

/-- The `works` dictionary of a reference entry, modelled as an
insertion-ordered association list with unique keys (Python dict). -/
abbrev WorksAList := List (String × WorkEntry)

/-- Dict lookup `works[k]` (as an Option). -/
def alistGet {α : Type} : List (String × α) → String → Option α
  | [], _ => Option.none
  | (k1, v) :: rest, k => if k1 == k then Option.some v else alistGet rest k

/-- Dict assignment `works[k] = v`: replaces the value at an existing key in
place, appends a new key at the end. -/
def alistSet {α : Type} : List (String × α) → String → α → List (String × α)
  | [], k, v => [(k, v)]
  | (k1, v1) :: rest, k, v =>
    if k1 == k then (k, v) :: rest else (k1, v1) :: alistSet rest k v

/-- `works[k]['files'].append(fd)`: mutates the entry at `k` (a no-op when the
key is absent, which the builder never lets happen). -/
def alistAppendFiles : WorksAList → String → FileRecord → WorksAList
  | [], _, _ => []
  | (k1, e) :: rest, k, fd =>
    if k1 == k then (k1, { e with files := e.files ++ [fd] }) :: rest
    else (k1, e) :: alistAppendFiles rest k fd

/-- A reference entry of `getWorkReferences`: `{composer, composerDir, works}`
plus the `sortedWorkKeys` key added when sorting is requested. -/
structure Ref where
  composer : String
  composerDir : String
  works : WorksAList
  sortedWorkKeys : Option (List String)
deriving DecidableEq

/-- The environment of `getWorkReferences`: the composer table
(`corpora.CoreCorpus._composers`, the module's `COMPOSERS` list), the full
corpus path listing consumed through `getComposer` (external `getPaths(None)`),
the `VIRTUAL` registry, and the external helpers
`common.findFormatExtFile`, `common.findFormatExtURL`, `common.spaceCamelCase`. -/
structure RefEnv where
  composers : List (String × String)
  paths : List String
  virtual : List VirtualWork
  findFormatExtFile : String → Option String × Option String
  findFormatExtURL : String → Option String × Option String
  spaceCamelCase : String → String

/-- The pure tail of the per-path loop body of `getWorkReferences`, applied to
the `fileStub` obtained from the successful two-part split: strip a leading
`os.sep`, skip files without a recognised extension (`continue`), group under
the work stub (first component, extension removed when a format was
recognised), creating the stub's entry on first sight and appending the file
record to it. -/
def processPathCore (ffile : String → Option String × Option String)
    (spaceCamel : String → String) (composerDirectory : String)
    (works : WorksAList) (fileStub0 : String) : WorksAList :=
  let fileStub := if pyStartsWith fileStub0 osSep then pyDrop fileStub0 osSep.data.length
                  else fileStub0
  let fileComponents := pySplit fileStub osSep
  let lastComp := fileComponents.getLastD ""
  match ffile lastComp with
  | (_, Option.none) => works
  | (m21Format, Option.some ext) =>
    let workStub := match m21Format with
      | Option.none => fileComponents.headD ""
      | Option.some _ => pyReplace (fileComponents.headD "") ext ""
    let works1 := match alistGet works workStub with
      | Option.some _ => works
      | Option.none => alistSet works workStub
          { title := pyTitle (spaceCamel workStub), virtual := false, files := [] }
    let fileDict : FileRecord := {
      format := m21Format, ext := Option.some ext,
      corpusPath := pyPathJoin composerDirectory fileStub,
      fileName := Option.some lastComp,
      title := pyTitle (spaceCamel (pyReplace lastComp ext "")),
      url := Option.none }
    alistAppendFiles works1 workStub fileDict

/-- Body of the per-path loop of `getWorkReferences`:
`junk, fileStub = path.split(composerDirectory)` (a `ValueError` unless the
split has exactly two parts, or the separator is empty), then the pure
grouping step `processPathCore`. -/
def processPathStep (ffile : String → Option String × Option String)
    (spaceCamel : String → String) (composerDirectory : String)
    (works : WorksAList) (path : String) : Except PyError WorksAList :=
  if composerDirectory = "" then .error (.valueError "empty separator")
  else
    match pySplit path composerDirectory with
    | [_junk, fileStub0] =>
      .ok (processPathCore ffile spaceCamel composerDirectory works fileStub0)
    | _ => .error (.valueError "too many values to unpack")

/-- The `for path in works:` loop of `getWorkReferences`. -/
def buildComposerWorks (env : RefEnv) (cd : String) :
    List String → WorksAList → Except PyError WorksAList
  | [], works => .ok works
  | path :: rest, works =>
    match processPathStep env.findFormatExtFile env.spaceCamelCase cd works path with
    | .error e => .error e
    | .ok works1 => buildComposerWorks env cd rest works1

/-- One iteration of the composer loop of `getWorkReferences`: list the
composer's paths via `getComposer` and fold them into a fresh works dict. -/
def processComposer (env : RefEnv) (cd comp : String) : Except PyError Ref :=
  match buildComposerWorks env cd (getComposer env.paths cd) [] with
  | .error e => .error e
  | .ok works => .ok { composer := comp, composerDir := cd, works := works,
                       sortedWorkKeys := Option.none }

/-- The composer loop of `getWorkReferences` (appends one reference entry per
composer-table row, in table order). -/
def buildRefs (env : RefEnv) : List (String × String) → List Ref → Except PyError (List Ref)
  | [], acc => .ok acc
  | (cd, comp) :: rest, acc =>
    match processComposer env cd comp with
    | .error e => .error e
    | .ok ref => buildRefs env rest (acc ++ [ref])

/-- The work-stub entry built for a virtual work (virtual flag set, one file
record per URL via `common.findFormatExtURL`). -/
def virtualEntry (furl : String → Option String × Option String)
    (vw : VirtualWork) (cp : String) : WorkEntry :=
  { title := vw.title, virtual := true,
    files := vw.urlList.map (fun url =>
      { format := (furl url).1, ext := (furl url).2, corpusPath := cp,
        fileName := Option.none, title := vw.title, url := Option.some url }) }

/-- The `for ref in results:` search of the virtual loop: assign the stub's
entry (dict assignment, so an existing stub is overwritten) inside the first
reference entry whose composer name or composer directory matches; `none`
when no entry matches. -/
def updateMatched (composer cDir stub : String) (entry : WorkEntry) :
    List Ref → Option (List Ref)
  | [] => Option.none
  | r :: rs =>
    if r.composer == composer || r.composerDir == cDir then
      Option.some ({ r with works := alistSet r.works stub entry } :: rs)
    else
      (updateMatched composer cDir stub entry rs).map (fun rs1 => r :: rs1)

/-- One iteration of the `for vw in VIRTUAL:` loop of `getWorkReferences`
(an `AttributeError` would arise on a `None` corpus path; the registry filter
at module load keeps only non-`None` paths). -/
def processVirtualStep (furl : String → Option String × Option String)
    (results : List Ref) (vw : VirtualWork) : Except PyError (List Ref) :=
  match vw.corpusPath with
  | Option.none => .error (.attributeError "corpusPath is None")
  | Option.some cp =>
    let cDir := (pySplit cp "/").headD ""
    let stub := pyReplace cp (pyConcat cDir "/") ""
    let entry := virtualEntry furl vw cp
    match updateMatched vw.composer cDir stub entry results with
    | Option.some results1 => .ok results1
    | Option.none =>
      .ok (results ++ [{ composer := vw.composer, composerDir := cDir,
                         works := alistSet [] stub entry, sortedWorkKeys := Option.none }])

/-- The virtual loop of `getWorkReferences`. -/
def foldVirtual (furl : String → Option String × Option String) :
    List VirtualWork → List Ref → Except PyError (List Ref)
  | [], results => .ok results
  | vw :: rest, results =>
    match processVirtualStep furl results vw with
    | .error e => .error e
    | .ok results1 => foldVirtual furl rest results1

/-- Python comparison of the two-element lists `[title, workStub]` used to
sort the per-composer work keys. -/
def pairLtB (a b : String × String) : Bool :=
  if strLtB a.1 b.1 then true else if strLtB b.1 a.1 then false else strLtB a.2 b.2

/-- Comparison of the `[composerDir, ref]` sort groups: by directory name.
(Python would compare the reference dicts on equal directories; the
directories of distinct entries are distinct, and this model keeps the stable
order on ties.) -/
def refLtB (a b : Ref) : Bool := strLtB a.composerDir b.composerDir

/-- The `if sort:` block of `getWorkReferences`: store the `(title, stub)`-
sorted work keys on every entry, then sort the entries by composer
directory. -/
def sortRefs (results : List Ref) : List Ref :=
  let withKeys := results.map (fun r =>
    let keys := (pySort pairLtB (r.works.map (fun kv => (kv.2.title, kv.1)))).map (fun p => p.2)
    { r with sortedWorkKeys := Option.some keys })
  pySort refLtB withKeys

/-- `getWorkReferences(sort)` from `corpus/__init__.py`: one reference entry
per composer-table row, the virtual works folded in, and the optional final
sort. -/
def getWorkReferences (env : RefEnv) (sort : Bool) : Except PyError (List Ref) :=
  match buildRefs env env.composers [] with
  | .error e => .error e
  | .ok base =>
    match foldVirtual env.findFormatExtURL env.virtual base with
    | .error e => .error e
    | .ok results => .ok (if sort then sortRefs results else results)

/-! ## Concrete environments used by the witnesses and counterexamples -/

/-- A corpus whose core matcher never matches and with an empty virtual
registry. -/
def emptyCorpus : Corpus := { coreWorkList := fun _ _ _ => [], virtual := [] }

/-- A virtual work for the first-match witnesses. -/
def vwFirst : VirtualWork :=
  { corpusPath := Option.some "bach/bwv1007/prelude", composer := "Johann Sebastian Bach",
    title := "Prelude", urlList := ["http://example.org/first.krn"],
    getUrlByExt := fun _ => ["http://example.org/first.krn"] }

/-- A second matching virtual work with different URLs. -/
def vwSecond : VirtualWork :=
  { corpusPath := Option.some "bach/bwv1007/sarabande", composer := "Johann Sebastian Bach",
    title := "Sarabande", urlList := ["http://example.org/second.krn"],
    getUrlByExt := fun _ => ["http://example.org/second.krn"] }

/-- Reference-builder environment over the real composer table with an empty
path listing and no virtual works (for the ordering counterexample). -/
def envTable : RefEnv :=
  { composers := COMPOSERS, paths := [], virtual := [],
    findFormatExtFile := fun _ => (Option.none, Option.none),
    findFormatExtURL := fun _ => (Option.none, Option.none),
    spaceCamelCase := fun s => s }

/-- Reference-builder environment with a single composer and no corpus
content (for small witnesses). -/
def envOneComposer : RefEnv :=
  { composers := [("bach", "Johann Sebastian Bach")], paths := [], virtual := [],
    findFormatExtFile := fun _ => (Option.none, Option.none),
    findFormatExtURL := fun _ => (Option.none, Option.none),
    spaceCamelCase := fun s => s }

/-- The single (empty) reference entry `getWorkReferences envOneComposer true`
builds. -/
def refOne : Ref :=
  { composer := "Johann Sebastian Bach", composerDir := "bach",
    works := [], sortedWorkKeys := Option.some [] }

/-- The virtual work whose stub collides with the core-corpus stub `op1`. -/
def vwCollide : VirtualWork :=
  { corpusPath := Option.some "bach/op1", composer := "Johann Sebastian Bach",
    title := "Op1", urlList := ["http://example.org/op1.xml"],
    getUrlByExt := fun _ => ["http://example.org/op1.xml"] }

/-- Reference-builder environment with one core file for the stub `op1` and a
virtual work colliding with it. -/
def envCollide : RefEnv :=
  { composers := [("bach", "Johann Sebastian Bach")],
    paths := ["corpus/bach/op1.mxl"], virtual := [vwCollide],
    findFormatExtFile := fun s =>
      if pyEndsWith s ".mxl" then (Option.some "musicxml", Option.some ".mxl")
      else (Option.none, Option.none),
    findFormatExtURL := fun _ => (Option.some "musicxml", Option.some ".xml"),
    spaceCamelCase := fun s => s }

/-- The file record the core-corpus pass discovers for `corpus/bach/op1.mxl`. -/
def coreOp1File : FileRecord :=
  { format := Option.some "musicxml", ext := Option.some ".mxl",
    corpusPath := "bach/op1.mxl", fileName := Option.some "op1.mxl",
    title := "Op1", url := Option.none }

/-- The file record the virtual pass builds for `vwCollide`. -/
def virtualOp1File : FileRecord :=
  { format := Option.some "musicxml", ext := Option.some ".xml",
    corpusPath := "bach/op1", fileName := Option.none,
    title := "Op1", url := Option.some "http://example.org/op1.xml" }

/-- The reference entry `getWorkReferences envCollide false` actually builds:
the virtual entry has overwritten the stub discovered from the core corpus. -/
def refCollide : Ref :=
  { composer := "Johann Sebastian Bach", composerDir := "bach",
    works := [("op1", { title := "Op1", virtual := true, files := [virtualOp1File] })],
    sortedWorkKeys := Option.none }

/-! # Helper lemmas: insertion sort and the string order -/

theorem mem_pyInsert {α : Type} (lt : α → α → Bool) (x y : α) (l : List α) :
    y ∈ pyInsert lt x l ↔ y = x ∨ y ∈ l := by
  induction l with
  | nil => simp [pyInsert]
  | cons z zs ih =>
    by_cases h : lt z x = true
    · rw [pyInsert, if_pos h]
      rw [List.mem_cons, ih, List.mem_cons]
      tauto
    · rw [pyInsert, if_neg h]
      exact List.mem_cons

theorem mem_pySort {α : Type} (lt : α → α → Bool) (y : α) (l : List α) :
    y ∈ pySort lt l ↔ y ∈ l := by
  induction l with
  | nil => simp [pySort]
  | cons x xs ih =>
    rw [pySort, mem_pyInsert, ih, List.mem_cons]

theorem pairwise_pyInsert {α : Type} (lt : α → α → Bool)
    (hasym : ∀ a b, lt a b = true → lt b a = false)
    (hct : ∀ a b c, lt a c = true → lt a b = true ∨ lt b c = true)
    (x : α) (l : List α)
    (hl : l.Pairwise (fun a b => lt b a = false)) :
    (pyInsert lt x l).Pairwise (fun a b => lt b a = false) := by
  induction l with
  | nil => simp [pyInsert]
  | cons y ys ih =>
    rcases List.pairwise_cons.mp hl with ⟨hy, hys⟩
    by_cases h : lt y x = true
    · rw [pyInsert, if_pos h]
      refine List.pairwise_cons.mpr ⟨?_, ih hys⟩
      intro z hz
      rcases (mem_pyInsert lt x z ys).mp hz with rfl | hz2
      · exact hasym y z h
      · exact hy z hz2
    · rw [pyInsert, if_neg h]
      refine List.pairwise_cons.mpr ⟨?_, hl⟩
      intro z hz
      rcases List.mem_cons.mp hz with rfl | hz2
      · cases hv : lt z x
        · rfl
        · exact absurd hv h
      · cases hv : lt z x
        · rfl
        · rcases hct z y x hv with h3 | h3
          · rw [hy z hz2] at h3
            exact absurd h3 (by simp)
          · exact absurd h3 h

theorem pairwise_pySort {α : Type} (lt : α → α → Bool)
    (hasym : ∀ a b, lt a b = true → lt b a = false)
    (hct : ∀ a b c, lt a c = true → lt a b = true ∨ lt b c = true)
    (l : List α) :
    (pySort lt l).Pairwise (fun a b => lt b a = false) := by
  induction l with
  | nil => simp [pySort]
  | cons x xs ih => exact pairwise_pyInsert lt hasym hct x _ ih

theorem charListLt_asymm (a : List Char) : ∀ b, charListLt a b = true → charListLt b a = false := by
  induction a with
  | nil =>
    intro b h
    cases b with
    | nil => simp [charListLt] at h
    | cons y ys => simp [charListLt]
  | cons x xs ih =>
    intro b h
    cases b with
    | nil => simp [charListLt] at h
    | cons y ys =>
      by_cases hxy : x < y
      · have hyx : ¬ y < x := lt_asymm hxy
        simp [charListLt, hyx, hxy]
      · by_cases hyx : y < x
        · simp [charListLt, hxy, hyx] at h
        · have h2 : charListLt xs ys = true := by simpa [charListLt, hxy, hyx] using h
          simp [charListLt, hxy, hyx, ih ys h2]

theorem charListLt_cotrans (a : List Char) :
    ∀ b c, charListLt a c = true → charListLt a b = true ∨ charListLt b c = true := by
  induction a with
  | nil =>
    intro b c h
    cases c with
    | nil => simp [charListLt] at h
    | cons z zs =>
      cases b with
      | nil => right; simp [charListLt]
      | cons y ys => left; simp [charListLt]
  | cons x xs ih =>
    intro b c h
    cases c with
    | nil => simp [charListLt] at h
    | cons z zs =>
      cases b with
      | nil => right; simp [charListLt]
      | cons y ys =>
        by_cases hxz : x < z
        · by_cases hxy : x < y
          · left; simp [charListLt, hxy]
          · by_cases hyx : y < x
            · right
              have hyz : y < z := lt_trans hyx hxz
              simp [charListLt, hyz]
            · have hxy2 : x = y := le_antisymm (le_of_not_lt hyx) (le_of_not_lt hxy)
              right
              have hyz : y < z := hxy2 ▸ hxz
              simp [charListLt, hyz]
        · by_cases hzx : z < x
          · simp [charListLt, hxz, hzx] at h
          · have h2 : charListLt xs zs = true := by simpa [charListLt, hxz, hzx] using h
            by_cases hxy : x < y
            · left; simp [charListLt, hxy]
            · by_cases hyx : y < x
              · right
                have hxz2 : x = z := le_antisymm (le_of_not_lt hzx) (le_of_not_lt hxz)
                have hyz : y < z := hxz2 ▸ hyx
                simp [charListLt, hyz]
              · have hxy2 : x = y := le_antisymm (le_of_not_lt hyx) (le_of_not_lt hxy)
                have hxz2 : x = z := le_antisymm (le_of_not_lt hzx) (le_of_not_lt hxz)
                subst hxy2
                subst hxz2
                rcases ih ys zs h2 with h3 | h3
                · left; simp [charListLt, lt_irrefl, h3]
                · right; simp [charListLt, lt_irrefl, h3]

theorem strLtB_asymm (a b : String) : strLtB a b = true → strLtB b a = false :=
  fun h => charListLt_asymm a.data b.data h

theorem strLtB_cotrans (a b c : String) :
    strLtB a c = true → strLtB a b = true ∨ strLtB b c = true :=
  fun h => charListLt_cotrans a.data b.data c.data h

/-! # Helper lemmas for the work resolver -/

theorem arityPolicy_shape (l : List String) :
    (∃ p, arityPolicy l = .ok (.single p)) ∨
    (∃ ps, arityPolicy l = .ok (.multiple ps) ∧ 2 ≤ ps.length) ∨
    (∃ m, arityPolicy l = .error (.corpusException m)) := by
  match l with
  | [] => exact Or.inr (Or.inr ⟨_, rfl⟩)
  | [p] => exact Or.inl ⟨_, rfl⟩
  | p :: q :: rest =>
    refine Or.inr (Or.inl ⟨p :: q :: rest, rfl, ?_⟩)
    simp only [List.length_cons]
    omega

theorem getWorkAux_shape (env : Corpus) (mv : Movement) (exts : List (Option String)) :
    ∀ (r : Nat) (w : WorkName),
      (∃ p, getWorkAux env r w mv exts = .ok (.single p)) ∨
      (∃ ps, getWorkAux env r w mv exts = .ok (.multiple ps) ∧ 2 ≤ ps.length) ∨
      (∃ m, getWorkAux env r w mv exts = .error (.corpusException m)) := by
  intro r
  induction r with
  | zero =>
    intro w
    rw [getWorkAux.eq_1]
    dsimp only
    by_cases h : (env.coreWorkList w mv exts).length = 0
    · rw [if_pos h]
      by_cases h2 : pyEndsWith (nameToStr w) ".xml" = true
      · rw [if_pos h2]; exact arityPolicy_shape _
      · rw [if_neg h2]; exact arityPolicy_shape _
    · rw [if_neg h]; exact arityPolicy_shape _
  | succ k ih =>
    intro w
    rw [getWorkAux.eq_1]
    dsimp only
    by_cases h : (env.coreWorkList w mv exts).length = 0
    · rw [if_pos h]
      by_cases h2 : pyEndsWith (nameToStr w) ".xml" = true
      · rw [if_pos h2]; exact ih _
      · rw [if_neg h2]; exact arityPolicy_shape _
    · rw [if_neg h]; exact arityPolicy_shape _

/-- Claim C1: for every work identifier, movement specifier and extension set,
`getWork` either returns exactly one path/URL (not wrapped in a list), or an
ordered list of two or more paths, or fails with `CorpusException` after all
fallbacks; it never returns an empty list. -/
theorem getWork_result_arity (env : Corpus) (w : WorkName) (mv : Movement) (e : Exts) :
    (∃ p, getWork env w mv e = .ok (.single p)) ∨
    (∃ ps, getWork env w mv e = .ok (.multiple ps) ∧ 2 ≤ ps.length) ∨
    (∃ m, getWork env w mv e = .error (.corpusException m)) := by
  rw [getWork]
  exact getWorkAux_shape env mv (normalizeExts e) 1 w

/-! # The xml-to-mxl fallback (C3) -/

theorem isPrefixOf_reversed_mxl (r : List Char) :
    List.isPrefixOf ['l', 'm', 'x', '.'] ('l' :: 'x' :: 'm' :: '.' :: r) = false := rfl

theorem pyEndsWith_concat_mxl (t : String) : pyEndsWith (pyConcat t ".mxl") ".xml" = false := by
  cases t with
  | mk l =>
    have hdata : (pyConcat ⟨l⟩ ".mxl").data = l ++ ['.', 'm', 'x', 'l'] := rfl
    rw [pyEndsWith, hdata, List.reverse_append]
    exact isPrefixOf_reversed_mxl l.reverse

theorem getWorkAux_no_xml (env : Corpus) (mv : Movement) (exts : List (Option String))
    (n : String) (h : pyEndsWith n ".xml" = false) (r : Nat) :
    getWorkAux env r (.str n) mv exts = getWorkAux env 0 (.str n) mv exts := by
  cases r with
  | zero => rfl
  | succ k =>
    have hcond : ¬ (pyEndsWith (nameToStr (.str n)) ".xml" = true) := by
      rw [show nameToStr (.str n) = n from rfl, h]
      exact Bool.false_ne_true
    conv_lhs => rw [getWorkAux.eq_1]
    conv_rhs => rw [getWorkAux.eq_1]
    dsimp only
    by_cases hc : (env.coreWorkList (.str n) mv exts).length = 0
    · rw [if_pos hc, if_pos hc, if_neg hcond, if_neg hcond]
    · rw [if_neg hc, if_neg hc]

/-- Claim C3: when the core-corpus match list is empty and the (joined) work
name ends with `.xml`, `getWork` retries the entire resolution with the final
`.xml` replaced by `.mxl` — before the virtual-work registry is consulted. -/
theorem getWork_xml_to_mxl (env : Corpus) (w : WorkName) (mv : Movement) (e : Exts)
    (h1 : env.coreWorkList w mv (normalizeExts e) = [])
    (h2 : pyEndsWith (nameToStr w) ".xml" = true) :
    getWork env w mv e =
      getWork env
        (.str (pyConcat (pyTake (nameToStr w) ((nameToStr w).data.length - 4)) ".mxl")) mv e := by
  rw [getWork, getWork]
  conv_lhs => rw [getWorkAux.eq_1]
  dsimp only
  rw [if_pos (by rw [h1]; rfl), if_pos h2]
  exact (getWorkAux_no_xml env mv (normalizeExts e) _ (pyEndsWith_concat_mxl _) 1).symm

/-- Witness for C3 at a concrete input: an identifier ending in `.xml` with an
empty core listing resolves exactly as its `.mxl` substitution does. -/
theorem getWork_xml_to_mxl_witness :
    emptyCorpus.coreWorkList (.str "a.xml") .none (normalizeExts .noneE) = [] ∧
    pyEndsWith (nameToStr (.str "a.xml")) ".xml" = true ∧
    getWork emptyCorpus (.str "a.xml") .none .noneE =
      getWork emptyCorpus
        (.str (pyConcat (pyTake (nameToStr (.str "a.xml"))
          ((nameToStr (.str "a.xml")).data.length - 4)) ".mxl")) .none .noneE :=
  ⟨rfl, by decide, getWork_xml_to_mxl emptyCorpus (.str "a.xml") .none .noneE rfl (by decide)⟩

/-! # The virtual-work lookup (C4, C10) -/

/-- Claim C4: `getVirtualWorkList` returns the extension-filtered URL list of
the first virtual work whose corpus path contains the identifier as a
case-insensitive substring, and the empty list when no virtual work's corpus
path contains it. -/
theorem getVirtualWorkList_find (registry : List VirtualWork) (w : String)
    (mv : Movement) (e : Exts) :
    getVirtualWorkList registry w mv e =
      match registry.find? (virtualMatches w) with
      | Option.some obj => obj.getUrlByExt (normalizeExts e)
      | Option.none => [] := by
  rw [getVirtualWorkList]
  induction registry with
  | nil => rfl
  | cons obj rest ih =>
    by_cases h : virtualMatches w obj = true
    · rw [getVirtualWorkListGo, if_pos h, List.find?_cons_of_pos _ h]
    · rw [getVirtualWorkListGo, if_neg h, List.find?_cons_of_neg _ h, ih]

theorem getVirtualWorkListGo_first (exts : List (Option String)) (w : String) :
    ∀ (pre : List VirtualWork) (obj : VirtualWork) (post : List VirtualWork),
      (∀ o ∈ pre, virtualMatches w o = false) → virtualMatches w obj = true →
      getVirtualWorkListGo exts w (pre ++ obj :: post) = obj.getUrlByExt exts
  | [], obj, post, _, hobj => by
    rw [List.nil_append, getVirtualWorkListGo, if_pos hobj]
  | q :: qs, obj, post, hpre, hobj => by
    have hq : virtualMatches w q = false := hpre q (List.mem_cons_self q qs)
    rw [List.cons_append, getVirtualWorkListGo, if_neg (by rw [hq]; exact Bool.false_ne_true)]
    exact getVirtualWorkListGo_first exts w qs obj post
      (fun o ho => hpre o (List.mem_cons_of_mem q ho)) hobj

/-- Claim C10: when several virtual works match the identifier, the result is
the URL list of the first matching registry entry alone — never a union over
all matching entries. -/
theorem getVirtualWorkList_first_only (pre post : List VirtualWork) (obj : VirtualWork)
    (w : String) (mv : Movement) (e : Exts)
    (hpre : ∀ o ∈ pre, virtualMatches w o = false)
    (hobj : virtualMatches w obj = true)
    (_hmore : ∃ o ∈ post, virtualMatches w o = true) :
    getVirtualWorkList (pre ++ obj :: post) w mv e = obj.getUrlByExt (normalizeExts e) := by
  rw [getVirtualWorkList]
  exact getVirtualWorkListGo_first (normalizeExts e) w pre obj post hpre hobj

/-- Witness for C10 at a concrete registry: two matching virtual works, and
the result is exactly the first one's URL list. -/
theorem getVirtualWorkList_first_only_witness :
    (∀ o ∈ ([] : List VirtualWork), virtualMatches "bwv1007" o = false) ∧
    virtualMatches "bwv1007" vwFirst = true ∧
    (∃ o ∈ [vwSecond], virtualMatches "bwv1007" o = true) ∧
    getVirtualWorkList ([] ++ vwFirst :: [vwSecond]) "bwv1007" .none .noneE =
      vwFirst.getUrlByExt (normalizeExts .noneE) :=
  ⟨fun o ho => absurd ho (List.not_mem_nil o),
   by decide,
   ⟨vwSecond, List.mem_singleton.mpr rfl, by decide⟩,
   getVirtualWorkList_first_only [] [vwSecond] vwFirst "bwv1007" .none .noneE
     (fun o ho => absurd ho (List.not_mem_nil o)) (by decide)
     ⟨vwSecond, List.mem_singleton.mpr rfl, by decide⟩⟩

/-! # Determinism of the reference builder (C9) -/

/-- Claim C9: two invocations of `getWorkReferences` with the same composer
table, path listings and virtual registry (the same environment) and the same
sort flag yield structurally identical results. -/
theorem getWorkReferences_deterministic (env1 env2 : RefEnv) (s1 s2 : Bool)
    (henv : env1 = env2) (hs : s1 = s2) :
    getWorkReferences env1 s1 = getWorkReferences env2 s2 := by
  subst henv
  subst hs
  rfl

/-- Witness for C9 at a concrete environment. -/
theorem getWorkReferences_deterministic_witness :
    getWorkReferences envTable true = getWorkReferences envTable true :=
  getWorkReferences_deterministic envTable envTable true true rfl rfl

/-! # The composer matcher (C2) -/

/-- Claim C2: a path is included in `getComposer`'s result exactly when one of
its `os.sep`-separated components equals the composer name case-insensitively,
or contains a dot and everything before its final dot-group equals the
composer name case-insensitively; a request for "verdi" never matches the
component "monteverdi"; and the result is sorted ascending by full path
string. -/
theorem getComposer_spec (paths : List String) (composerName : String) :
    (∀ p, p ∈ getComposer paths composerName ↔
      (p ∈ paths ∧ ∃ stub ∈ pySplit p osSep,
        (pyLower composerName = pyLower stub ∨
          (stub.data.contains '.' = true ∧
            pyLower (pyJoin "." ((pySplit stub ".").dropLast)) = pyLower composerName))))
    ∧ composerStubMatch "verdi" "monteverdi" = false
    ∧ (getComposer paths composerName).Pairwise (fun a b => strLeB a b = true) := by
  refine ⟨?_, by decide, ?_⟩
  · intro p
    rw [getComposer, mem_pySort, List.mem_filter]
    simp only [List.any_eq_true, composerStubMatch, Bool.or_eq_true, Bool.and_eq_true,
      beq_iff_eq]
  · rw [getComposer]
    have h := pairwise_pySort strLtB strLtB_asymm strLtB_cotrans
      (paths.filter (fun path => (pySplit path osSep).any (composerStubMatch composerName)))
    exact h.imp (fun hab => by rw [strLeB, hab]; rfl)

/-! # addPath (C7, C8) -/

theorem dictIterDelete_no_corpus :
    ∀ (ks : List (String × String)) (cache : List ((String × String) × List String))
      (changed : Bool) (m : String),
      (dictIterDelete ks cache changed).2 ≠ Option.some (.corpusException m) := by
  intro ks
  induction ks with
  | nil =>
    intro cache changed m
    cases changed <;> simp [dictIterDelete]
  | cons k ks ih =>
    intro cache changed m
    cases changed with
    | true => simp [dictIterDelete]
    | false =>
      by_cases hk : (k.1 == "local") = true
      · rw [dictIterDelete, if_neg (by simp), if_pos hk]
        exact ih _ _ _
      · rw [dictIterDelete, if_neg (by simp), if_neg hk]
        exact ih _ _ _

/-- Claim C7: `addPath` raises `CorpusException` exactly when the path is
`None`, does not exist, is already in the session-local temporary list, or is
already in the environment's `localCorpusSettings`; and whenever it raises
that exception the temporary path list is left unchanged. -/
theorem addPath_spec (fileExists : String → Bool) (settings : List String)
    (st : CorpusState) (fp : Option String) :
    ((∃ m, (addPath fileExists settings st fp).2 = Option.some (.corpusException m)) ↔
      (fp = Option.none ∨ ∃ p, fp = Option.some p ∧
        (fileExists p = false ∨ p ∈ st.pathsLocalTemp ∨ p ∈ settings)))
    ∧ (∀ m, (addPath fileExists settings st fp).2 = Option.some (.corpusException m) →
        (addPath fileExists settings st fp).1.pathsLocalTemp = st.pathsLocalTemp) := by
  cases fp with
  | none =>
    refine ⟨⟨fun _ => Or.inl rfl, fun _ => ⟨_, rfl⟩⟩, fun m _ => rfl⟩
  | some p =>
    by_cases h1 : fileExists p = false
    · have hc1 : (!(fileExists p)) = true := by rw [h1]; rfl
      simp only [addPath]
      rw [if_pos hc1]
      exact ⟨⟨fun _ => Or.inr ⟨p, rfl, Or.inl h1⟩, fun _ => ⟨_, rfl⟩⟩, fun m _ => rfl⟩
    · have h1t : fileExists p = true := by
        cases hv : fileExists p
        · exact absurd hv h1
        · rfl
      have hc1 : ¬ ((!(fileExists p)) = true) := by rw [h1t]; simp
      by_cases h2 : st.pathsLocalTemp.contains p = true
      · simp only [addPath]
        rw [if_neg hc1, if_pos h2]
        exact ⟨⟨fun _ => Or.inr ⟨p, rfl, Or.inr (Or.inl (List.elem_iff.mp h2))⟩,
               fun _ => ⟨_, rfl⟩⟩, fun m _ => rfl⟩
      · by_cases h3 : settings.contains p = true
        · simp only [addPath]
          rw [if_neg hc1, if_neg h2, if_pos h3]
          exact ⟨⟨fun _ => Or.inr ⟨p, rfl, Or.inr (Or.inr (List.elem_iff.mp h3))⟩,
                 fun _ => ⟨_, rfl⟩⟩, fun m _ => rfl⟩
        · simp only [addPath]
          rw [if_neg hc1, if_neg h2, if_neg h3]
          dsimp only
          constructor
          · constructor
            · intro hex
              rcases hex with ⟨m, hm⟩
              exact absurd hm (dictIterDelete_no_corpus _ _ _ m)
            · intro hrhs
              rcases hrhs with hnone | ⟨q, hq, hdisj⟩
              · exact absurd hnone (by simp)
              · have hqp : q = p := by
                  injection hq.symm
                subst hqp
                rcases hdisj with hfe | hmem | hmem
                · rw [h1t] at hfe
                  exact absurd hfe (by simp)
                · exact absurd (List.elem_iff.mpr hmem) h2
                · exact absurd (List.elem_iff.mpr hmem) h3
          · intro m hm
            exact absurd hm (dictIterDelete_no_corpus _ _ _ m)

/-- Witness for C7 at a concrete input: a nonexistent path raises the
exception and leaves the temporary list unchanged. -/
theorem addPath_spec_witness :
    (addPath (fun _ => false) [] { pathsLocalTemp := [], pathsCache := [] }
      (Option.some "/data")).2 =
      Option.some (.corpusException "an invalid file path has been provided") ∧
    (addPath (fun _ => false) [] { pathsLocalTemp := [], pathsCache := [] }
      (Option.some "/data")).1.pathsLocalTemp = [] :=
  ⟨by decide,
   (addPath_spec (fun _ => false) [] { pathsLocalTemp := [], pathsCache := [] }
      (Option.some "/data")).2 "an invalid file path has been provided" (by decide)⟩

/-- Claim C8 (the code, evaluated at the failing input): a valid registration
with a `local`-domain entry in the path cache appends the path, deletes that
entry, and then raises `RuntimeError` — the CPython dict iterator fails after
the dict changed size — instead of terminating normally as the claim
states. -/
theorem addPath_local_cache_runtime_error :
    addPath (fun _ => true) []
      { pathsLocalTemp := [], pathsCache := [(("local", "corepaths"), [])] }
      (Option.some "/data/scores") =
      ({ pathsLocalTemp := ["/data/scores"], pathsCache := [] },
       Option.some (.runtimeError "dictionary changed size during iteration")) := by
  decide

/-! # Association-list lemmas for the works dictionary -/

theorem alistGet_alistSet_self {α : Type} (l : List (String × α)) (k : String) (v : α) :
    alistGet (alistSet l k v) k = Option.some v := by
  induction l with
  | nil => simp [alistSet, alistGet]
  | cons kv rest ih =>
    obtain ⟨k1, v1⟩ := kv
    by_cases h : (k1 == k) = true
    · rw [alistSet, if_pos h, alistGet, if_pos (beq_self_eq_true k)]
    · rw [alistSet, if_neg h, alistGet, if_neg h]
      exact ih

theorem alistGet_alistSet_ne {α : Type} (l : List (String × α)) (k kq : String) (v : α)
    (h : kq ≠ k) : alistGet (alistSet l k v) kq = alistGet l kq := by
  induction l with
  | nil =>
    have hkq : (k == kq) = false := beq_eq_false_iff_ne.mpr (fun e => h e.symm)
    simp [alistSet, alistGet, hkq]
  | cons kv rest ih =>
    obtain ⟨k1, v1⟩ := kv
    by_cases h1 : (k1 == k) = true
    · have hk1 : k1 = k := beq_iff_eq.mp h1
      rw [alistSet, if_pos h1, alistGet, alistGet,
        if_neg (by rw [beq_eq_false_iff_ne.mpr (fun e => h e.symm)]; exact Bool.false_ne_true),
        if_neg (by rw [hk1, beq_eq_false_iff_ne.mpr (fun e => h e.symm)]; exact Bool.false_ne_true)]
    · rw [alistSet, if_neg h1, alistGet, alistGet]
      by_cases h2 : (k1 == kq) = true
      · rw [if_pos h2, if_pos h2]
      · rw [if_neg h2, if_neg h2]
        exact ih

theorem alistSet_keys_mem {α : Type} (l : List (String × α)) (k : String) (v : α) (x : String)
    (h : x ∈ (alistSet l k v).map Prod.fst) : x ∈ l.map Prod.fst ∨ x = k := by
  induction l with
  | nil =>
    rw [alistSet] at h
    simp at h
    exact Or.inr h
  | cons kv rest ih =>
    obtain ⟨k1, v1⟩ := kv
    by_cases h1 : (k1 == k) = true
    · rw [alistSet, if_pos h1] at h
      simp only [List.map_cons, List.mem_cons] at h
      rcases h with rfl | h
      · exact Or.inr rfl
      · exact Or.inl (by simp [h])
    · rw [alistSet, if_neg h1] at h
      simp only [List.map_cons, List.mem_cons] at h
      rcases h with rfl | h
      · exact Or.inl (by simp)
      · rcases ih h with h2 | h2
        · exact Or.inl (by simp [h2])
        · exact Or.inr h2

theorem alistSet_keys_nodup {α : Type} (l : List (String × α)) (k : String) (v : α)
    (h : (l.map Prod.fst).Nodup) : ((alistSet l k v).map Prod.fst).Nodup := by
  induction l with
  | nil => simp [alistSet]
  | cons kv rest ih =>
    obtain ⟨k1, v1⟩ := kv
    simp only [List.map_cons, List.nodup_cons] at h
    by_cases h1 : (k1 == k) = true
    · have hk1 : k1 = k := beq_iff_eq.mp h1
      rw [alistSet, if_pos h1]
      simp only [List.map_cons, List.nodup_cons]
      exact ⟨hk1 ▸ h.1, h.2⟩
    · rw [alistSet, if_neg h1]
      simp only [List.map_cons, List.nodup_cons]
      refine ⟨?_, ih h.2⟩
      intro hmem
      rcases alistSet_keys_mem rest k v k1 hmem with h2 | h2
      · exact h.1 h2
      · exact h1 (beq_iff_eq.mpr h2)

theorem alistAppendFiles_keys (l : WorksAList) (k : String) (fd : FileRecord) :
    (alistAppendFiles l k fd).map Prod.fst = l.map Prod.fst := by
  induction l with
  | nil => rfl
  | cons kv rest ih =>
    obtain ⟨k1, e1⟩ := kv
    by_cases h : (k1 == k) = true
    · rw [alistAppendFiles, if_pos h]
      simp
    · rw [alistAppendFiles, if_neg h]
      simp only [List.map_cons]
      rw [ih]

theorem alistGet_alistAppendFiles_self (l : WorksAList) (k : String) (fd : FileRecord)
    (e : WorkEntry) (h : alistGet l k = Option.some e) :
    alistGet (alistAppendFiles l k fd) k = Option.some { e with files := e.files ++ [fd] } := by
  induction l with
  | nil => rw [alistGet] at h; cases h
  | cons kv rest ih =>
    obtain ⟨k1, e1⟩ := kv
    by_cases h1 : (k1 == k) = true
    · rw [alistGet, if_pos h1] at h
      injection h with he
      rw [alistAppendFiles, if_pos h1, alistGet, if_pos h1, he]
    · rw [alistGet, if_neg h1] at h
      rw [alistAppendFiles, if_neg h1, alistGet, if_neg h1]
      exact ih h

theorem alistGet_alistAppendFiles_ne (l : WorksAList) (k kq : String) (fd : FileRecord)
    (h : kq ≠ k) : alistGet (alistAppendFiles l k fd) kq = alistGet l kq := by
  induction l with
  | nil => rfl
  | cons kv rest ih =>
    obtain ⟨k1, e1⟩ := kv
    by_cases h1 : (k1 == k) = true
    · have hk1 : k1 = k := beq_iff_eq.mp h1
      rw [alistAppendFiles, if_pos h1, alistGet, alistGet,
        if_neg (by rw [hk1, beq_eq_false_iff_ne.mpr (fun e2 => h e2.symm)]; exact Bool.false_ne_true),
        if_neg (by rw [hk1, beq_eq_false_iff_ne.mpr (fun e2 => h e2.symm)]; exact Bool.false_ne_true)]
    · rw [alistAppendFiles, if_neg h1, alistGet, alistGet]
      by_cases h2 : (k1 == kq) = true
      · rw [if_pos h2, if_pos h2]
      · rw [if_neg h2, if_neg h2]
        exact ih

/-! # Invariants of the reference builder -/

theorem processPathCore_spec (ffile : String → Option String × Option String)
    (sc : String → String) (cd : String) (works : WorksAList) (fs0 : String) :
    processPathCore ffile sc cd works fs0 = works ∨
    (∃ wstub fresh fd, alistGet works wstub = Option.none ∧
      processPathCore ffile sc cd works fs0 =
        alistAppendFiles (alistSet works wstub fresh) wstub fd) ∨
    (∃ wstub fd e, alistGet works wstub = Option.some e ∧
      processPathCore ffile sc cd works fs0 = alistAppendFiles works wstub fd) := by
  rw [processPathCore]
  dsimp only
  split
  · exact Or.inl rfl
  · split
    · rename_i e heq
      exact Or.inr (Or.inr ⟨_, _, e, heq, rfl⟩)
    · rename_i heq
      exact Or.inr (Or.inl ⟨_, _, _, heq, rfl⟩)

theorem processPathStep_ok (ffile : String → Option String × Option String)
    (sc : String → String) (cd : String) (works : WorksAList) (path : String)
    (works1 : WorksAList)
    (h : processPathStep ffile sc cd works path = .ok works1) :
    ∃ fs0, works1 = processPathCore ffile sc cd works fs0 := by
  rw [processPathStep] at h
  by_cases hcd : cd = ""
  · rw [if_pos hcd] at h
    exact Except.noConfusion h
  · rw [if_neg hcd] at h
    rcases hsp : pySplit path cd with _ | ⟨junk, _ | ⟨fs0, _ | ⟨c3, rest⟩⟩⟩ <;> rw [hsp] at h
    · exact Except.noConfusion h
    · exact Except.noConfusion h
    · injection h with h1
      exact ⟨fs0, h1.symm⟩
    · exact Except.noConfusion h

theorem processPathCore_keys_nodup (ffile : String → Option String × Option String)
    (sc : String → String) (cd : String) (works : WorksAList) (fs0 : String)
    (hnd : (works.map Prod.fst).Nodup) :
    ((processPathCore ffile sc cd works fs0).map Prod.fst).Nodup := by
  rcases processPathCore_spec ffile sc cd works fs0 with h | ⟨w, fr, fd, _, h⟩ | ⟨w, fd, e, _, h⟩
  · rw [h]; exact hnd
  · rw [h, alistAppendFiles_keys]
    exact alistSet_keys_nodup works w fr hnd
  · rw [h, alistAppendFiles_keys]
    exact hnd

theorem buildComposerWorks_keys_nodup (env : RefEnv) (cd : String) :
    ∀ (paths : List String) (works works1 : WorksAList),
      buildComposerWorks env cd paths works = .ok works1 →
      (works.map Prod.fst).Nodup → (works1.map Prod.fst).Nodup
  | [], works, works1, h, hnd => by
    rw [buildComposerWorks] at h
    injection h with h1
    exact h1 ▸ hnd
  | path :: rest, works, works1, h, hnd => by
    rw [buildComposerWorks] at h
    rcases hstep : processPathStep env.findFormatExtFile env.spaceCamelCase cd works path
      with e | works2
    · rw [hstep] at h
      exact Except.noConfusion h
    · rw [hstep] at h
      rcases processPathStep_ok _ _ _ _ _ _ hstep with ⟨fs0, hw2⟩
      exact buildComposerWorks_keys_nodup env cd rest works2 works1 h
        (hw2 ▸ processPathCore_keys_nodup _ _ _ _ _ hnd)

theorem processComposer_keys_nodup (env : RefEnv) (cd comp : String) (ref : Ref)
    (h : processComposer env cd comp = .ok ref) : (ref.works.map Prod.fst).Nodup := by
  rw [processComposer] at h
  rcases hb : buildComposerWorks env cd (getComposer env.paths cd) [] with e | works
  · rw [hb] at h
    exact Except.noConfusion h
  · rw [hb] at h
    injection h with h1
    have := buildComposerWorks_keys_nodup env cd (getComposer env.paths cd) [] works hb
      (by simp)
    rw [← h1]
    exact this

theorem buildRefs_keys_nodup (env : RefEnv) :
    ∀ (table : List (String × String)) (acc refs : List Ref),
      buildRefs env table acc = .ok refs →
      (∀ r ∈ acc, (r.works.map Prod.fst).Nodup) →
      ∀ r ∈ refs, (r.works.map Prod.fst).Nodup
  | [], acc, refs, h, hacc => by
    rw [buildRefs] at h
    injection h with h1
    exact h1 ▸ hacc
  | (cd, comp) :: rest, acc, refs, h, hacc => by
    rw [buildRefs] at h
    rcases hc : processComposer env cd comp with e | ref
    · rw [hc] at h
      exact Except.noConfusion h
    · rw [hc] at h
      refine buildRefs_keys_nodup env rest (acc ++ [ref]) refs h ?_
      intro r hr
      rcases List.mem_append.mp hr with hr2 | hr2
      · exact hacc r hr2
      · rw [List.mem_singleton.mp hr2]
        exact processComposer_keys_nodup env cd comp ref hc

theorem updateMatched_keys_nodup (c d stub : String) (e : WorkEntry) :
    ∀ (results out : List Ref),
      updateMatched c d stub e results = Option.some out →
      (∀ r ∈ results, (r.works.map Prod.fst).Nodup) →
      ∀ r ∈ out, (r.works.map Prod.fst).Nodup
  | [], out, h, _ => by
    rw [updateMatched] at h
    exact Option.noConfusion h
  | r0 :: rs, out, h, hres => by
    rw [updateMatched] at h
    by_cases hc : (r0.composer == c || r0.composerDir == d) = true
    · rw [if_pos hc] at h
      injection h with h1
      intro r hr
      rw [← h1] at hr
      rcases List.mem_cons.mp hr with rfl | hr2
      · exact alistSet_keys_nodup r0.works stub e (hres r0 (List.mem_cons_self r0 rs))
      · exact hres r (List.mem_cons_of_mem r0 hr2)
    · rw [if_neg hc] at h
      rcases hrec : updateMatched c d stub e rs with _ | out2
      · rw [hrec] at h
        exact Option.noConfusion h
      · rw [hrec] at h
        injection h with h1
        intro r hr
        rw [← h1] at hr
        rcases List.mem_cons.mp hr with rfl | hr2
        · exact hres r (List.mem_cons_self r rs)
        · exact updateMatched_keys_nodup c d stub e rs out2 hrec
            (fun q hq => hres q (List.mem_cons_of_mem r0 hq)) r hr2

theorem processVirtualStep_keys_nodup (furl : String → Option String × Option String)
    (results : List Ref) (vw : VirtualWork) (out : List Ref)
    (h : processVirtualStep furl results vw = .ok out)
    (hres : ∀ r ∈ results, (r.works.map Prod.fst).Nodup) :
    ∀ r ∈ out, (r.works.map Prod.fst).Nodup := by
  rw [processVirtualStep] at h
  rcases hcp : vw.corpusPath with _ | cp
  · rw [hcp] at h
    exact Except.noConfusion h
  · rw [hcp] at h
    dsimp only at h
    rcases hu : updateMatched vw.composer ((pySplit cp "/").headD "")
        (pyReplace cp (pyConcat ((pySplit cp "/").headD "") "/") "")
        (virtualEntry furl vw cp) results with _ | out2
    · rw [hu] at h
      injection h with h1
      intro r hr
      rw [← h1] at hr
      rcases List.mem_append.mp hr with hr2 | hr2
      · exact hres r hr2
      · rw [List.mem_singleton.mp hr2]
        exact alistSet_keys_nodup [] _ _ (by simp)
    · rw [hu] at h
      injection h with h1
      exact h1 ▸ updateMatched_keys_nodup _ _ _ _ results out2 hu hres

theorem foldVirtual_keys_nodup (furl : String → Option String × Option String) :
    ∀ (vws : List VirtualWork) (results out : List Ref),
      foldVirtual furl vws results = .ok out →
      (∀ r ∈ results, (r.works.map Prod.fst).Nodup) →
      ∀ r ∈ out, (r.works.map Prod.fst).Nodup
  | [], results, out, h, hres => by
    rw [foldVirtual] at h
    injection h with h1
    exact h1 ▸ hres
  | vw :: rest, results, out, h, hres => by
    rw [foldVirtual] at h
    rcases hs : processVirtualStep furl results vw with e | results2
    · rw [hs] at h
      exact Except.noConfusion h
    · rw [hs] at h
      exact foldVirtual_keys_nodup furl rest results2 out h
        (processVirtualStep_keys_nodup furl results vw results2 hs hres)

theorem sortRefs_works_sub (results : List Ref) (r1 : Ref) (h : r1 ∈ sortRefs results) :
    ∃ r ∈ results, r1.works = r.works := by
  rw [sortRefs] at h
  rw [mem_pySort] at h
  rcases List.mem_map.mp h with ⟨r, hr, heq⟩
  exact ⟨r, hr, by rw [← heq]⟩

/-! # The final sort of getWorkReferences (C5) -/

/-- Claim C5 counterexample: with the real composer table (and an empty
corpus), `getWorkReferences(sort=True)` returns the entries sorted
alphabetically by composer directory — `ciconia` before `cpebach` — while the
registry's insertion order has `cpebach` (index 3) before `ciconia`
(index 4).  The output order is therefore not the table's insertion order. -/
theorem getWorkReferences_table_order_counterexample :
    (getWorkReferences envTable true).map (fun refs => refs.map Ref.composerDir) =
      Except.ok ["airdsAirs", "bach", "beethoven", "ciconia", "cpebach", "essenFolksong",
        "handel", "haydn", "josquin", "luca", "miscFolk", "monteverdi", "mozart",
        "oneills1850", "ryansMammoth", "schoenberg", "schumann"] ∧
    COMPOSERS.map Prod.fst =
      ["airdsAirs", "bach", "beethoven", "cpebach", "ciconia", "essenFolksong",
       "handel", "haydn", "josquin", "luca", "miscFolk", "monteverdi", "mozart",
       "oneills1850", "ryansMammoth", "schoenberg", "schumann"] ∧
    (getWorkReferences envTable true).map (fun refs => refs.map Ref.composerDir) ≠
      Except.ok (COMPOSERS.map Prod.fst) := by
  refine ⟨by decide, by decide, by decide⟩

/-- Claim C5 (amended): when `getWorkReferences` is called with `sort=True`,
the returned reference entries are ordered ascending by composer directory
name — the Python sort of the `[composerDir, ref]` groups — which coincides
with the registry's insertion order only when the table happens to be
alphabetical (it is not: `cpebach` precedes `ciconia`). -/
theorem getWorkReferences_sorted_by_composerDir (env : RefEnv) (refs : List Ref)
    (h : getWorkReferences env true = .ok refs) :
    refs.Pairwise (fun a b => strLeB a.composerDir b.composerDir = true) := by
  rw [getWorkReferences] at h
  rcases hb : buildRefs env env.composers [] with e | base
  · rw [hb] at h
    exact Except.noConfusion h
  · rw [hb] at h
    dsimp only at h
    rcases hv : foldVirtual env.findFormatExtURL env.virtual base with e | results
    · rw [hv] at h
      exact Except.noConfusion h
    · rw [hv] at h
      dsimp only at h
      injection h with h1
      rw [if_pos rfl] at h1
      rw [← h1, sortRefs]
      refine (pairwise_pySort refLtB
        (fun a b hab => strLtB_asymm a.composerDir b.composerDir hab)
        (fun a b c hac => strLtB_cotrans a.composerDir b.composerDir c.composerDir hac)
        _).imp ?_
      intro a b hba
      have hba2 : strLtB b.composerDir a.composerDir = false := hba
      rw [strLeB, hba2]
      rfl

/-- Witness for the amended C5 at a concrete environment. -/
theorem getWorkReferences_sorted_by_composerDir_witness :
    getWorkReferences envOneComposer true = .ok [refOne] ∧
    ([refOne] : List Ref).Pairwise (fun a b => strLeB a.composerDir b.composerDir = true) :=
  ⟨by decide, getWorkReferences_sorted_by_composerDir envOneComposer [refOne] (by decide)⟩

/-! # Stub uniqueness, appends and the virtual overwrite (C6) -/

theorem updateMatched_append (c d stub : String) (e : WorkEntry) :
    ∀ (pre : List Ref) (r : Ref) (post : List Ref),
      (∀ q ∈ pre, (q.composer == c || q.composerDir == d) = false) →
      ((r.composer == c || r.composerDir == d) = true) →
      updateMatched c d stub e (pre ++ r :: post) =
        Option.some (pre ++ { r with works := alistSet r.works stub e } :: post)
  | [], r, post, _, hr => by
    rw [List.nil_append, updateMatched, if_pos hr, List.nil_append]
  | q :: qs, r, post, hpre, hr => by
    have hq := hpre q (List.mem_cons_self q qs)
    rw [List.cons_append, updateMatched,
      if_neg (by rw [hq]; exact Bool.false_ne_true),
      updateMatched_append c d stub e qs r post
        (fun o ho => hpre o (List.mem_cons_of_mem q ho)) hr]
    rfl

/-- Claim C6 (amended): (1) work stubs are unique keys within every reference
entry built by `getWorkReferences`; (2) a core-corpus file discovered for an
already-present work stub is appended to that stub's file list, preserving
the stub's title and virtual flag; (3) the virtual pass assigns the virtual
work's stub entry into the matched reference entry by dict assignment, and
(4) dict assignment at an existing key replaces that key's entry — so a
virtual work whose stub collides with an existing one replaces the stub's
entry rather than appending to its file list. -/
theorem getWorkReferences_stub_semantics :
    (∀ (env : RefEnv) (s : Bool) (refs : List Ref),
      getWorkReferences env s = .ok refs → ∀ r ∈ refs, ((r.works.map Prod.fst).Nodup))
    ∧ (∀ (ffile : String → Option String × Option String) (sc : String → String)
        (cd : String) (works : WorksAList) (path : String) (works1 : WorksAList)
        (stub : String) (entry : WorkEntry),
        processPathStep ffile sc cd works path = .ok works1 →
        alistGet works stub = Option.some entry →
        ∃ extra, alistGet works1 stub =
          Option.some { title := entry.title, virtual := entry.virtual,
                        files := entry.files ++ extra })
    ∧ (∀ (furl : String → Option String × Option String) (pre post : List Ref) (r : Ref)
        (vw : VirtualWork) (cp : String),
        vw.corpusPath = Option.some cp →
        (∀ q ∈ pre, (q.composer == vw.composer
          || q.composerDir == (pySplit cp "/").headD "") = false) →
        ((r.composer == vw.composer || r.composerDir == (pySplit cp "/").headD "") = true) →
        processVirtualStep furl (pre ++ r :: post) vw =
          .ok (pre ++ { r with works := (alistSet r.works
              (pyReplace cp (pyConcat ((pySplit cp "/").headD "") "/") "")
              (virtualEntry furl vw cp)) } :: post))
    ∧ (∀ (works : WorksAList) (stub : String) (entry : WorkEntry),
        alistGet (alistSet works stub entry) stub = Option.some entry) := by
  refine ⟨?_, ?_, ?_, fun works stub entry => alistGet_alistSet_self works stub entry⟩
  · intro env s refs h r hr
    rw [getWorkReferences] at h
    rcases hb : buildRefs env env.composers [] with e | base
    · rw [hb] at h
      exact Except.noConfusion h
    · rw [hb] at h
      dsimp only at h
      rcases hv : foldVirtual env.findFormatExtURL env.virtual base with e | results
      · rw [hv] at h
        exact Except.noConfusion h
      · rw [hv] at h
        dsimp only at h
        injection h with h1
        have hbase : ∀ q ∈ base, ((q.works.map Prod.fst).Nodup) :=
          buildRefs_keys_nodup env env.composers [] base hb
            (fun q hq => absurd hq (List.not_mem_nil q))
        have hresults : ∀ q ∈ results, ((q.works.map Prod.fst).Nodup) :=
          foldVirtual_keys_nodup env.findFormatExtURL env.virtual base results hv hbase
        cases s with
        | false =>
          rw [if_neg Bool.false_ne_true] at h1
          rw [← h1] at hr
          exact hresults r hr
        | true =>
          rw [if_pos rfl] at h1
          rw [← h1] at hr
          rcases sortRefs_works_sub results r hr with ⟨q, hq, heq⟩
          rw [heq]
          exact hresults q hq
  · intro ffile sc cd works path works1 stub entry h hget
    rcases processPathStep_ok ffile sc cd works path works1 h with ⟨fs0, hw⟩
    rcases processPathCore_spec ffile sc cd works fs0 with hc | ⟨w, fr, fd, hnone, hc⟩ |
      ⟨w, fd, e, hsome, hc⟩
    · refine ⟨[], ?_⟩
      rw [hw, hc, List.append_nil]
      exact hget
    · have hne : stub ≠ w := by
        intro hEq
        rw [hEq, hnone] at hget
        exact Option.noConfusion hget
      refine ⟨[], ?_⟩
      rw [hw, hc, alistGet_alistAppendFiles_ne _ _ _ _ hne,
        alistGet_alistSet_ne _ _ _ _ hne, List.append_nil]
      exact hget
    · by_cases hsw : stub = w
      · subst hsw
        refine ⟨[fd], ?_⟩
        rw [hw, hc]
        exact alistGet_alistAppendFiles_self works stub fd entry hget
      · refine ⟨[], ?_⟩
        rw [hw, hc, alistGet_alistAppendFiles_ne _ _ _ _ hsw, List.append_nil]
        exact hget
  · intro furl pre post r vw cp hcp hpre hr
    rw [processVirtualStep, hcp]
    dsimp only
    rw [updateMatched_append vw.composer ((pySplit cp "/").headD "")
      (pyReplace cp (pyConcat ((pySplit cp "/").headD "") "/") "")
      (virtualEntry furl vw cp) pre r post hpre hr]

/-- Claim C6 counterexample: in `envCollide` the core pass first records the
file `corpus/bach/op1.mxl` under the stub `op1`; the virtual work with corpus
path `bach/op1` then collides with that stub, and the built entry contains
only the virtual file record — the previously discovered core record is gone,
so the additional discovery replaced the stub's entry instead of appending to
its file list. -/
theorem getWorkReferences_virtual_overwrite_counterexample :
    getWorkReferences envCollide false = .ok [refCollide] ∧
    alistGet refCollide.works "op1" =
      Option.some { title := "Op1", virtual := true, files := [virtualOp1File] } ∧
    coreOp1File ∉ [virtualOp1File] := by
  refine ⟨by decide, by decide, by decide⟩

/-- Witness for the amended C6 at a concrete environment: the built works
dictionary of `envCollide` has unique stub keys. -/
theorem getWorkReferences_stub_semantics_witness :
    ((refCollide.works.map Prod.fst).Nodup) :=
  getWorkReferences_stub_semantics.1 envCollide false [refCollide] (by decide) refCollide
    (List.mem_singleton.mpr rfl)
